import Mathlib

/-
Verification of the LUCIEN shell core (core/shell_parser.py and
core/shell_executor.py): a shallow embedding of the tokenizer, parser,
session state and pipeline executor, together with theorems checking the
specification of that subsystem against the embedded code.

Conventions of the embedding:
 - Python strings are Lean String, Python lists are Lean List.
 - Python dicts (insertion ordered) are association lists List (String x String)
   updated in place by setKV, which keeps insertion order like a dict.
 - The ambient OS environment (os.environ) is a parameter env : String -> Option String.
 - Path resolution (Path(p).expanduser().resolve(), which may raise) is a
   parameter resolve : String -> Option String; none models the except branch.
 - The filesystem visible to redirects and cd is a concrete FileSys record.
 - Spawned OS processes are modelled by an oracle StageBehavior per stage
   (did Popen succeed, did the wait time out, exit code, stdout, stderr),
   and the executor additionally emits a trace of spawn/kill events so that
   process-management behaviour (which argv was spawned, which processes
   were killed) is observable in theorems.
-/

set_option autoImplicit false
set_option maxHeartbeats 1000000

namespace Lucien

/-- Characters written via code points to keep quote and brace characters
out of the literals of this file. -/
def dQuoteChar : Char := Char.ofNat 34

def sQuoteChar : Char := Char.ofNat 39

def openBraceChar : Char := Char.ofNat 123

def closeBraceChar : Char := Char.ofNat 125

/-- Python str.isspace on the ASCII whitespace actually produced by shell input. -/
def pyIsSpace (c : Char) : Bool :=
  c = ' ' || c = '\t' || c = '\n' || c = Char.ofNat 11 || c = Char.ofNat 12 || c = '\r'

/-- Python str.strip(): drop whitespace from both ends. -/
def pyStrip (s : String) : String :=
  String.mk (((s.data.dropWhile pyIsSpace).reverse.dropWhile pyIsSpace).reverse)

/-- Python dict assignment d[k] = v on an insertion-ordered association list. -/
def setKV : List (String × String) → String → String → List (String × String)
  | [], k, v => [(k, v)]
  | (k', v') :: rest, k, v =>
      if k' = k then (k, v) :: rest else (k', v') :: setKV rest k v

/-- Python s.split(sep='=', maxsplit=1): text before the first '=' and text after it. -/
def split_first_eq (s : String) : String × String :=
  let pre := s.data.takeWhile (fun c => !(c = '='))
  (String.mk pre, String.mk (s.data.drop (pre.length + 1)))

/-- Python s.lstrip(chars='$'). -/
def lstrip_dollar (s : String) : String :=
  String.mk (s.data.dropWhile (fun c => c = '$'))

/-- Token kinds of core/shell_parser.py (TokenType). The Python member
VARIABLE is called var here because variable is a Lean keyword. -/
inductive TokenType where
  | command
  | argument
  | pipe
  | redirect_out
  | redirect_append
  | redirect_in
  | var
  | background
deriving Repr, DecidableEq

/-- Token of core/shell_parser.py. -/
structure Token where
  type : TokenType
  value : String
  position : Nat
deriving Repr, DecidableEq

/-- Command of core/shell_parser.py. -/
structure Command where
  name : String
  args : List String
  env_vars : List (String × String)
  input_redirect : Option String := none
  output_redirect : Option String := none
  append_redirect : Option String := none
  is_background : Bool := false
deriving Repr, DecidableEq

/-- Pipeline of core/shell_parser.py. -/
structure Pipeline where
  commands : List Command
  is_background : Bool := false
deriving Repr, DecidableEq

/-- Quote characters recognised by the tokenizer splitting loop. -/
def isQuoteChar (c : Char) : Bool := c = dQuoteChar || c = sQuoteChar

/-- Single-character operator characters recognised outside quotes. -/
def isOpChar (c : Char) : Bool := c = '|' || c = '>' || c = '<' || c = '&'

/-- Flush the accumulator: parts.append(current.strip()) if current.strip(). -/
def flushPart (current : String) (parts : List String) : List String :=
  let s := pyStrip current
  if s = "" then parts else parts ++ [s]

/-- The character-splitting loop of ShellParser.tokenize: walk the line,
tracking quote state, flushing whitespace-separated words and recognising
the operators with two-character lookahead for >>, and, or. -/
def splitParts : List Char → Bool → Option Char → String → List String → List String
  | [], _, _, current, parts => flushPart current parts
  | c :: rest, inQuotes, quoteChar, current, parts =>
      if isQuoteChar c && !inQuotes then
        splitParts rest true (some c) (current.push c) parts
      else if inQuotes && quoteChar = some c then
        splitParts rest false none (current.push c) parts
      else if !inQuotes && isOpChar c then
        let parts1 := flushPart current parts
        match rest with
        | c2 :: rest2 =>
            if c = '>' && c2 = '>' then splitParts rest2 false none "" (parts1 ++ [">>"])
            else if c = '&' && c2 = '&' then splitParts rest2 false none "" (parts1 ++ ["&&"])
            else if c = '|' && c2 = '|' then splitParts rest2 false none "" (parts1 ++ ["||"])
            else splitParts (c2 :: rest2) false none "" (parts1 ++ [String.singleton c])
        | [] => parts1 ++ [String.singleton c]
      else if !inQuotes && pyIsSpace c then
        splitParts rest false none "" (flushPart current parts)
      else
        splitParts rest inQuotes quoteChar (current.push c) parts

/-- Python part.startswith(single character dollar). -/
def startsWithDollar (p : String) : Bool :=
  match p.data with
  | [] => false
  | c :: _ => c = '$'

/-- The classification loop of ShellParser.tokenize: parts to typed tokens,
carrying the previous part (for the command-start rule) and the running
position counter. -/
def classifyParts : List String → Option String → Nat → List Token
  | [], _, _ => []
  | p :: rest, prev, pos =>
      let tt :=
        if p = "|" then TokenType.pipe
        else if p = ">" then TokenType.redirect_out
        else if p = ">>" then TokenType.redirect_append
        else if p = "<" then TokenType.redirect_in
        else if p = "&" then TokenType.background
        else if startsWithDollar p then TokenType.var
        else if prev = none || prev = some "|" || prev = some "&&" || prev = some "||" then
          TokenType.command
        else TokenType.argument
      ⟨tt, p, pos⟩ :: classifyParts rest (some p) (pos + p.length + 1)

/-- ShellParser.tokenize. -/
def tokenize (line : String) : List Token :=
  classifyParts (splitParts line.data false none "" []) none 0

/-- Identifier start character of the Python regex [A-Za-z_]. -/
def isIdentStart (c : Char) : Bool := c.isAlpha || c = '_'

/-- Identifier character of the Python regex [A-Za-z0-9_]. -/
def isIdentChar (c : Char) : Bool := c.isAlpha || c.isDigit || c = '_'

/-- Longest identifier prefix and the remaining characters. -/
def takeIdent : List Char → List Char × List Char
  | [] => ([], [])
  | c :: rest =>
      if isIdentChar c then
        let r := takeIdent rest
        (c :: r.1, r.2)
      else ([], c :: rest)

theorem takeIdent_snd_length_le : ∀ l : List Char, (takeIdent l).2.length ≤ l.length := by
  intro l
  induction l with
  | nil => simp [takeIdent]
  | cons c rest ih =>
      simp only [takeIdent]
      split
      · exact Nat.le_succ_of_le ih
      · exact Nat.le_refl _

/-- Fuelled scanner for dollar-name references. Each step consumes at least
one character while the fuel drops by exactly one, so fuel equal to the
character count (as dollarMatches supplies) never runs out; the fuel only
makes the recursion structural. -/
def dollarMatchesF : Nat → List Char → List String
  | 0, _ => []
  | _ + 1, [] => []
  | _ + 1, [_] => []
  | fuel + 1, c :: c2 :: rest2 =>
      if c = '$' then
        if isIdentStart c2 then
          String.mk (c2 :: (takeIdent rest2).1) :: dollarMatchesF fuel (takeIdent rest2).2
        else dollarMatchesF fuel (c2 :: rest2)
      else dollarMatchesF fuel (c2 :: rest2)

/-- Matches of the regex for dollar-name references: each match is the
identifier after a dollar sign, collected left to right as re.finditer does. -/
def dollarMatches (l : List Char) : List String := dollarMatchesF l.length l

/-- Scan for a closing brace: the shortest nonempty brace-free run followed
by a closing brace, as the regex engine matches inside a dollar-brace group. -/
def scanBraceName : List Char → List Char → Option (List Char × List Char)
  | [], _ => none
  | c :: rest, acc =>
      if c = closeBraceChar then
        if acc.isEmpty then none else some (acc.reverse, rest)
      else scanBraceName rest (c :: acc)

theorem scanBraceName_rest_length_lt :
    ∀ (l acc : List Char) (n r : List Char),
      scanBraceName l acc = some (n, r) → r.length < l.length := by
  intro l
  induction l with
  | nil => intro acc n r h; simp [scanBraceName] at h
  | cons c rest ih =>
      intro acc n r h
      simp only [scanBraceName] at h
      split at h
      · split at h
        · simp at h
        · simp only [Option.some.injEq, Prod.mk.injEq] at h
          obtain ⟨h1, h2⟩ := h
          subst h2
          simp
      · have := ih _ _ _ h
        simp only [List.length_cons]
        omega

/-- Fuelled scanner for dollar-brace references: fuel equal to the character
count (as braceMatches supplies) never runs out, since scanBraceName always
returns a strictly shorter remainder; the fuel only makes the recursion
structural. -/
def braceMatchesF : Nat → List Char → List String
  | 0, _ => []
  | _ + 1, [] => []
  | _ + 1, [_] => []
  | fuel + 1, c :: c2 :: rest2 =>
      if c = '$' then
        if c2 = openBraceChar then
          match scanBraceName rest2 [] with
          | some (name, rest3) => String.mk name :: braceMatchesF fuel rest3
          | none => braceMatchesF fuel (c2 :: rest2)
        else braceMatchesF fuel (c2 :: rest2)
      else braceMatchesF fuel (c2 :: rest2)

/-- Matches of the regex for dollar-brace references: each match is the name
between the braces, collected left to right as re.finditer does. -/
def braceMatches (l : List Char) : List String := braceMatchesF l.length l

/-- Variable lookup of expansion: session variables first, then the inherited
process environment, then the empty string. -/
def lookup_var (vars : List (String × String)) (env : String → Option String)
    (n : String) : String :=
  match vars.lookup n with
  | some v => v
  | none => (env n).getD ""

/-- The replace target of a dollar-brace match. -/
def dollarBracePat (n : String) : String :=
  ("$".push openBraceChar) ++ n ++ String.singleton closeBraceChar

/-- ShellParser._expand_variables: two passes (dollar-brace form then bare
dollar form); each pass collects the matches of the pass-start text and then
performs cumulative replace-all substitutions, as the Python loop does. -/
def expand_variables (vars : List (String × String)) (env : String → Option String)
    (text : String) : String :=
  let t1 := (braceMatches text.data).foldl
    (fun t n => t.replace (dollarBracePat n) (lookup_var vars env n)) text
  (dollarMatches t1.data).foldl
    (fun t n => t.replace ("$" ++ n) (lookup_var vars env n)) t1

/-- The token-consuming loop of ShellParser.parse. State: the current open
command, the closed commands, and the session variable dict (which the
variable-assignment branch mutates mid-parse). Redirect branches consume the
following token as target only when a command is open, exactly as the Python
guard does. -/
def parseLoop (env : String → Option String) :
    List Token → Option Command → List Command → List (String × String) →
    List Command × List (String × String)
  | [], cur, acc, vars =>
      (acc ++ cur.toList, vars)
  | t :: rest, cur, acc, vars =>
      match t.type with
      | TokenType.command =>
          parseLoop env rest
            (some ⟨expand_variables vars env t.value, [], [], none, none, none, false⟩)
            (acc ++ cur.toList) vars
      | TokenType.argument =>
          match cur with
          | some c =>
              parseLoop env rest
                (some { c with args := c.args ++ [expand_variables vars env t.value] }) acc vars
          | none => parseLoop env rest none acc vars
      | TokenType.pipe =>
          match cur with
          | some c => parseLoop env rest none (acc ++ [c]) vars
          | none => parseLoop env rest none acc vars
      | TokenType.redirect_out =>
          match cur with
          | some c =>
              match rest with
              | t2 :: rest2 =>
                  parseLoop env rest2
                    (some { c with output_redirect := some (expand_variables vars env t2.value) })
                    acc vars
              | [] => (acc ++ [c], vars)
          | none => parseLoop env rest none acc vars
      | TokenType.redirect_append =>
          match cur with
          | some c =>
              match rest with
              | t2 :: rest2 =>
                  parseLoop env rest2
                    (some { c with append_redirect := some (expand_variables vars env t2.value) })
                    acc vars
              | [] => (acc ++ [c], vars)
          | none => parseLoop env rest none acc vars
      | TokenType.redirect_in =>
          match cur with
          | some c =>
              match rest with
              | t2 :: rest2 =>
                  parseLoop env rest2
                    (some { c with input_redirect := some (expand_variables vars env t2.value) })
                    acc vars
              | [] => (acc ++ [c], vars)
          | none => parseLoop env rest none acc vars
      | TokenType.background =>
          match cur with
          | some c => parseLoop env rest (some { c with is_background := true }) acc vars
          | none => parseLoop env rest none acc vars
      | TokenType.var =>
          if t.value.data.any (fun c => c = '=') then
            let nv := split_first_eq t.value
            let name := lstrip_dollar nv.1
            match cur with
            | some c =>
                parseLoop env rest
                  (some { c with env_vars := setKV c.env_vars name (expand_variables vars env nv.2) })
                  acc vars
            | none =>
                parseLoop env rest none acc (setKV vars name (expand_variables vars env nv.2))
          else parseLoop env rest cur acc vars

/-- ShellParser.parse: empty (all-whitespace) lines short-circuit to the empty
pipeline; otherwise tokenize, run the loop, and set the pipeline background
flag to the disjunction of the command flags. -/
def parse (vars : List (String × String)) (env : String → Option String)
    (line : String) : Pipeline × List (String × String) :=
  if pyStrip line = "" then (⟨[], false⟩, vars)
  else
    let r := parseLoop env (tokenize line) none [] vars
    (⟨r.1, r.1.any (fun c => c.is_background)⟩, r.2)

/-- ShellState of core/shell_executor.py: working directory, environment
overlay and alias table (history is owned by the configuration collaborator
and not modelled). -/
structure ShellState where
  current_dir : String
  environment : List (String × String)
  aliases : List (String × String)
deriving Repr, DecidableEq

/-- Concrete filesystem visible to cd and redirects: regular files with
contents, existing directories, paths on which open-for-write fails, and
directories on which os.chdir raises even though the exists and is_dir
checks pass (for example an existing directory without search permission,
whose stat goes through the searchable parent but which cannot be entered). -/
structure FileSys where
  files : List (String × String)
  dirs : List String
  unwritable : List String
  unsearchable : List String
deriving Repr, DecidableEq

def FileSys.read (fs : FileSys) (p : String) : Option String := fs.files.lookup p

def FileSys.pathExists (fs : FileSys) (p : String) : Bool :=
  (fs.files.lookup p).isSome || fs.dirs.contains p

def FileSys.isDir (fs : FileSys) (p : String) : Bool := fs.dirs.contains p

/-- Open for write and write the whole string (creating or truncating). -/
def FileSys.write (fs : FileSys) (p s : String) : Option FileSys :=
  if fs.unwritable.contains p then none
  else some { fs with files := setKV fs.files p s }

/-- Open for append and write the whole string at the end. -/
def FileSys.append (fs : FileSys) (p s : String) : Option FileSys :=
  if fs.unwritable.contains p then none
  else some { fs with files := setKV fs.files p (((fs.files.lookup p).getD "") ++ s) }

/-- ShellState.resolve_alias: single-level lookup, the name itself if absent. -/
def resolve_alias (st : ShellState) (cmd : String) : String :=
  (st.aliases.lookup cmd).getD cmd

/-- ShellState.change_directory: resolve the path (resolution may raise, the
except branch, with the state untouched) and check that the resolved path
exists and is a directory. On success of the checks the source assigns
current_dir FIRST and only then calls os.chdir: when os.chdir raises (an
unsearchable directory), the except branch returns False with current_dir
already mutated to the resolved path. Failures detected before the
assignment leave the state unchanged. -/
def change_directory (fs : FileSys) (resolve : String → Option String)
    (st : ShellState) (path : String) : Bool × ShellState :=
  match resolve path with
  | none => (false, st)
  | some p =>
      if fs.pathExists p && fs.isDir p then
        let st2 := { st with current_dir := p }
        if fs.unsearchable.contains p then (false, st2)
        else (true, st2)
      else (false, st)

/-- ShellState.set_env: update the environment overlay (the mirrored write to
the ambient os.environ is outside the model). -/
def set_env (st : ShellState) (name value : String) : ShellState :=
  { st with environment := setKV st.environment name value }

/-- ShellState.add_alias. -/
def add_alias (st : ShellState) (name command : String) : ShellState :=
  { st with aliases := setKV st.aliases name command }

/-- Per-stage behaviour of a spawned OS process, supplied as an oracle:
whether Popen succeeds (false models FileNotFoundError), whether the wait or
communicate call hits the 30 second timeout, and the exit code and captured
output of the process when it completes. -/
structure StageBehavior where
  spawnOk : Bool
  timedOut : Bool
  exitCode : Int
  stdout : String
  stderr : String
deriving Repr, DecidableEq

/-- The fixed wall-clock timeout, in seconds, passed to every communicate and
wait call of the executor. -/
def timeoutSeconds : Nat := 30

/-- Observable process-management actions of the executor. -/
inductive Event where
  | spawn (argv : List String)
  | kill (idx : Nat)
deriving Repr, DecidableEq

/-- Result of one execution: a (exit code, stdout, stderr) tuple, or session
termination via sys.exit from the exit builtin (SystemExit propagates). -/
inductive ExecOutcome where
  | done (exit_code : Int) (stdout : String) (stderr : String)
  | exited (code : Int)
deriving Repr, DecidableEq

/-- The keys of ShellExecutor.builtin_commands. -/
def builtin_commands : List String :=
  ["cd", "pwd", "set", "export", "alias", "env", "exit", "echo"]

/-- ShellExecutor._builtin_cd. -/
def builtin_cd (fs : FileSys) (resolve : String → Option String) (home : String)
    (st : ShellState) (args : List String) : ExecOutcome × ShellState :=
  let target := match args with
    | [] => home
    | a :: _ => a
  let r := change_directory fs resolve st target
  if r.1 then (.done 0 "" "", r.2)
  else (.done 1 "" ("cd: " ++ target ++ ": No such file or directory"), r.2)

/-- ShellExecutor._builtin_echo: join args with single spaces, no newline. -/
def builtin_echo (args : List String) : ExecOutcome :=
  .done 0 (String.intercalate " " args) ""

/-- Key-value lines as printed by the export, alias and env builtins. -/
def kvLines (l : List (String × String)) : String :=
  String.intercalate "\n" (l.map (fun kv => kv.1 ++ "=" ++ kv.2))

/-- Lexicographic order on pairs used by sorted(environment.items()). -/
def pairLe (x y : String × String) : Bool :=
  if x.1 = y.1 then decide (x.2 ≤ y.2) else decide (x.1 < y.1)

def insertPairSorted (x : String × String) :
    List (String × String) → List (String × String)
  | [] => [x]
  | y :: t => if pairLe x y then x :: y :: t else y :: insertPairSorted x t

def sortPairs (l : List (String × String)) : List (String × String) :=
  l.foldr insertPairSorted []

/-- ShellExecutor builtin dispatch: the string-keyed builtin method table,
run in-process against session state. Builtins never consult the filesystem
for redirects and never spawn a process. -/
def run_builtin (fs : FileSys) (resolve : String → Option String) (home : String)
    (st : ShellState) (name : String) (args : List String) : ExecOutcome × ShellState :=
  if name = "cd" then builtin_cd fs resolve home st args
  else if name = "pwd" then (.done 0 st.current_dir "", st)
  else if name = "set" then
    if args.length < 2 then (.done 1 "" "Usage: set VAR value", st)
    else (.done 0 "" "", st)
  else if name = "export" then
    match args with
    | [] => (.done 0 (kvLines st.environment) "", st)
    | _ =>
        let st2 := args.foldl (fun s a =>
          if a.data.any (fun c => c = '=') then
            let nv := split_first_eq a
            set_env s nv.1 nv.2
          else s) st
        (.done 0 "" "", st2)
  else if name = "alias" then
    match args with
    | [] => (.done 0 (kvLines st.aliases) "", st)
    | _ =>
        let st2 := args.foldl (fun s a =>
          if a.data.any (fun c => c = '=') then
            let nv := split_first_eq a
            add_alias s nv.1 nv.2
          else s) st
        (.done 0 "" "", st2)
  else if name = "env" then (.done 0 (kvLines (sortPairs st.environment)) "", st)
  else if name = "exit" then
    let code := match args with
      | [] => (0 : Int)
      | a :: _ => (a.toInt?).getD 0
    (.exited code, st)
  else builtin_echo args |> (fun o => (o, st))

/-- The argv list handed to subprocess.Popen for one stage:
the alias-resolved name followed by the args, with no word splitting. -/
def stage_argv (st : ShellState) (c : Command) : List String :=
  resolve_alias st c.name :: c.args

/-- ShellExecutor._execute_single_command: builtin dispatch first (against the
unresolved name, redirects ignored on that path); otherwise resolve the alias,
read the whole input-redirect file as stdin, spawn, honour the timeout, and
divert captured stdout into the output or append redirect target. On timeout
the function returns without killing the spawned process. -/
def execute_single_command (resolve : String → Option String) (home : String)
    (b : StageBehavior) (fs : FileSys) (st : ShellState) (c : Command) :
    ExecOutcome × ShellState × FileSys × List Event :=
  if builtin_commands.contains c.name then
    let r := run_builtin fs resolve home st c.name c.args
    (r.1, r.2, fs, [])
  else
    let rn := resolve_alias st c.name
    let stdinOk : Bool := match c.input_redirect with
      | some p => (fs.read p).isSome
      | none => true
    if !stdinOk then (.done 1 "" "Input redirect error", st, fs, [])
    else if !b.spawnOk then
      (.done 1 "" ("Command not found: " ++ c.name), st, fs, [])
    else
      let events := [Event.spawn (rn :: c.args)]
      if b.timedOut then (.done 1 "" "Command timed out", st, fs, events)
      else
        match c.output_redirect with
        | some p =>
            match fs.write p b.stdout with
            | some fs2 => (.done b.exitCode "" b.stderr, st, fs2, events)
            | none => (.done 1 "" "Output redirect error", st, fs, events)
        | none =>
            match c.append_redirect with
            | some p =>
                match fs.append p b.stdout with
                | some fs2 => (.done b.exitCode "" b.stderr, st, fs2, events)
                | none => (.done 1 "" "Append redirect error", st, fs, events)
            | none => (.done b.exitCode b.stdout b.stderr, st, fs, events)

/-- Kill events for process indices 0..n-1, as the loop killing every entry
of the processes list emits them. -/
def kill_range (n : Nat) : List Event := (List.range n).map Event.kill

/-- The spawning loop of ShellExecutor._execute_pipeline: left to right, the
first stage opens its input redirect, the last stage opens its output or
append redirect, every stage is spawned externally (no builtin dispatch).
Any open or Popen failure raises, which kills every already-spawned process
and aborts; no later stage is spawned. Returns the accumulated events. -/
def spawn_phase (behav : Nat → StageBehavior) (fs : FileSys) (st : ShellState) :
    Nat → List Command → List Event → Except (List Event) (List Event)
  | _, [], events => .ok events
  | i, c :: rest, events =>
      let inputOk : Bool :=
        if i = 0 then
          match c.input_redirect with
          | some p => (fs.read p).isSome
          | none => true
        else true
      let outputOk : Bool :=
        if rest.isEmpty then
          match c.output_redirect with
          | some p => !(fs.unwritable.contains p)
          | none =>
              match c.append_redirect with
              | some p => !(fs.unwritable.contains p)
              | none => true
        else true
      if inputOk && outputOk && (behav i).spawnOk then
        spawn_phase behav fs st (i + 1) rest (events ++ [Event.spawn (stage_argv st c)])
      else
        .error (events ++ kill_range i)

/-- The waiting loop of ShellExecutor._execute_pipeline over stage indices:
intermediate stages are waited on and a non-zero code is recorded into the
accumulator; the final stage is communicated with and its code is assigned
unconditionally, after the intermediate assignments. Returns none when any
wait or communicate call times out. -/
def waitLoop (behav : Nat → StageBehavior) : Nat → Nat → Int → Option Int
  | _, 0, acc => some acc
  | i, 1, _ =>
      if (behav i).timedOut then none else some (behav i).exitCode
  | i, Nat.succ (Nat.succ k), acc =>
      if (behav i).timedOut then none
      else waitLoop behav (i + 1) (Nat.succ k)
        (if (behav i).exitCode = 0 then acc else (behav i).exitCode)

/-- ShellExecutor._execute_pipeline (two or more commands): spawn phase then
wait phase. On timeout every spawned process is killed and the call reports
a timed-out result; otherwise the final stage's captured output is returned,
diverted to the redirect target of the last command when one is set. Session
state is never touched on this path. -/
def execute_pipeline_multi (behav : Nat → StageBehavior) (fs : FileSys)
    (st : ShellState) (cmds : List Command) :
    ExecOutcome × ShellState × FileSys × List Event :=
  match spawn_phase behav fs st 0 cmds [] with
  | .error events => (.done 1 "" "Pipeline execution error", st, fs, events)
  | .ok events =>
      let n := cmds.length
      match waitLoop behav 0 n 0 with
      | none => (.done 1 "" "Pipeline timed out", st, fs, events ++ kill_range n)
      | some code =>
          match cmds.getLast? with
          | none => (.done 0 "" "", st, fs, events)
          | some lastCmd =>
              let lb := behav (n - 1)
              match lastCmd.output_redirect with
              | some p => (.done code "" lb.stderr, st, (fs.write p lb.stdout).getD fs, events)
              | none =>
                  match lastCmd.append_redirect with
                  | some p =>
                      (.done code "" lb.stderr, st, (fs.append p lb.stdout).getD fs, events)
                  | none => (.done code lb.stdout lb.stderr, st, fs, events)

/-- ShellExecutor.execute_pipeline: empty pipeline is a no-op success, a
single command takes the builtin-or-single path, two or more commands take
the pipe path. -/
def execute_pipeline (resolve : String → Option String) (home : String)
    (behav : Nat → StageBehavior) (fs : FileSys) (st : ShellState)
    (p : Pipeline) : ExecOutcome × ShellState × FileSys × List Event :=
  match p.commands with
  | [] => (.done 0 "" "", st, fs, [])
  | [c] => execute_single_command resolve home (behav 0) fs st c
  | cmds => execute_pipeline_multi behav fs st cmds

/-- The stdout component of an outcome. -/
def outcome_stdout : ExecOutcome → String
  | .done _ s _ => s
  | .exited _ => ""

/-- Spawn argv lists occurring in an event trace, in order. -/
def spawn_events (l : List Event) : List (List String) :=
  l.filterMap (fun e => match e with | .spawn a => some a | .kill _ => none)

/-- Modelled from the spec: the pipeline result exit code as section 4.4
words it, for comparison with the embedded executor. The last command's code
if every upstream (non-final) command exited 0; otherwise the first non-zero
upstream code, in left-to-right order, overriding the final code. -/
def spec_pipeline_exit_code (codes : List Int) : Int :=
  match codes.dropLast.find? (fun c => !(c == 0)) with
  | some c => c
  | none => (codes.getLast?).getD 0

/-
Concrete fixtures used by witnesses and counterexamples.
-/

def envNone : String → Option String := fun _ => none

def resolveId : String → Option String := fun s => some s

def stEmpty : ShellState := ⟨"/home/u", [], []⟩

def fsEmpty : FileSys := ⟨[], [], [], []⟩

/-- A filesystem with one existing directory /locked that os.chdir cannot
enter (exists and is_dir pass, chdir raises). -/
def fsLocked : FileSys := ⟨[], ["/locked"], [], ["/locked"]⟩

def stAlias : ShellState := ⟨"/home/u", [], [("ll", "ls -la")]⟩

def behOk : Nat → StageBehavior := fun _ => ⟨true, false, 0, "OUT", "ERR"⟩

def behNotFound : Nat → StageBehavior := fun _ => ⟨false, false, 0, "", ""⟩

def behTimeout : Nat → StageBehavior := fun _ => ⟨true, true, 0, "", ""⟩

/-- Stage 0 exits 1, every later stage exits 0. -/
def behFirstFails : Nat → StageBehavior :=
  fun i => if i = 0 then ⟨true, false, 1, "a", "b"⟩ else ⟨true, false, 0, "o", "e"⟩

def cmdFalse : Command := ⟨"false", [], [], none, none, none, false⟩

def cmdTrue : Command := ⟨"true", [], [], none, none, none, false⟩

def cmdSleep : Command := ⟨"sleep", ["60"], [], none, none, none, false⟩

def cmdCd : Command := ⟨"cd", ["x"], [], none, none, none, false⟩

def cmdEcho : Command := ⟨"echo", ["hi"], [], none, none, none, false⟩

def defaultCmd : Command := ⟨"", [], [], none, none, none, false⟩

/-- C1 counterexample: in the two-command pipeline whose first stage exits 1
and whose last stage exits 0, the claim requires exit code 1 (the first
non-zero upstream code overrides the final code, as spec_pipeline_exit_code
computes), but the executor returns the last stage's code 0: the final
unconditional assignment in the wait loop runs after, and therefore
overwrites, the recorded upstream code. -/
theorem c1_counterexample :
    (execute_pipeline resolveId "/home/u" behFirstFails fsEmpty stEmpty
        ⟨[cmdFalse, cmdTrue], false⟩).1 = ExecOutcome.done 0 "o" "e"
    ∧ spec_pipeline_exit_code [1, 0] = 1
    ∧ ¬ ((0 : Int) = 1) := by
  decide

/-- C2 counterexample: executing the parsed line echo hi > out.txt does not
return empty stdout with out.txt containing the text: echo is dispatched as a
builtin, the builtin path ignores redirects, stdout is the string hi and no
file is written. -/
theorem c2_counterexample :
    ¬ (outcome_stdout (execute_pipeline resolveId "/home/u" behOk fsEmpty stEmpty
          (parse [] envNone "echo hi > out.txt").1).1 = ""
       ∧ ((execute_pipeline resolveId "/home/u" behOk fsEmpty stEmpty
          (parse [] envNone "echo hi > out.txt").1).2.2.1).files.lookup "out.txt"
          = some "hi\n") := by
  decide

/-- C3: after alias ll=ls -la, the single command ll extra_arg is spawned
with argv [ls -la, extra_arg]: the whole alias replacement string is passed
unsplit as argv[0] rather than being word-split into the program ls with
argument -la, so (as the second conjunct shows with a failing spawn) any
multi-word alias yields Command not found rather than running the program. -/
theorem c3_alias_argv_unsplit :
    (execute_pipeline resolveId "/home/u" behOk fsEmpty stAlias
        (parse [] envNone "ll extra_arg").1).2.2.2
      = [Event.spawn ["ls -la", "extra_arg"]]
    ∧ (execute_pipeline resolveId "/home/u" behNotFound fsEmpty stAlias
        (parse [] envNone "ll extra_arg").1).1
      = ExecOutcome.done 1 "" "Command not found: ll"
    ∧ ¬ (["ls -la", "extra_arg"] = ["ls", "-la", "extra_arg"]) := by
  decide

/-- C4 counterexample: the bare line VAR=value does not start with a dollar
sign, so the tokenizer classifies it as a command: parsing yields a pipeline
with one command named VAR=value and leaves session variables untouched,
contradicting the claim that the pipeline is empty and the variable stored. -/
theorem c4_counterexample :
    (parse [] envNone "VAR=value").1.commands.length = 1
    ∧ (parse [] envNone "VAR=value").2 = []
    ∧ ¬ ((parse [] envNone "VAR=value").1.commands = []) := by
  decide

/-- C5 counterexample: parsing echo a > f1 >> f2 produces a command with
both output_redirect and append_redirect set, violating the claimed
invariant that at most one of them is ever set. -/
theorem c5_counterexample :
    ((parse [] envNone "echo a > f1 >> f2").1.commands.headD defaultCmd).output_redirect
      = some "f1"
    ∧ ((parse [] envNone "echo a > f1 >> f2").1.commands.headD defaultCmd).append_redirect
      = some "f2" := by
  decide

/-- C8 counterexample: the line a && b contains none of the pipe or redirect
operators, yet parses into two commands (the and-and part makes the next
token a command start), contradicting the claim of exactly one command. -/
theorem c8_counterexample :
    (parse [] envNone "a && b").1.commands.length = 2
    ∧ ¬ ((parse [] envNone "a && b").1.commands.length = 1) := by
  decide

/-- Preservation of a command property through the parse loop: if P holds of
fresh commands and is preserved by the argument, background and env-override
updates, and additionally by each redirect-target update for the redirect
token kinds actually present in the token list, then every command of the
loop result satisfies P whenever the incoming accumulator and open command
do. The fuel n bounds the token list length (the redirect branches consume
two tokens). -/
theorem parseLoop_P (env : String → Option String) (P : Command → Prop)
    (hfresh : ∀ s, P ⟨s, [], [], none, none, none, false⟩)
    (hargs : ∀ (c : Command) (a : List String), P c → P { c with args := a })
    (hbg : ∀ c : Command, P c → P { c with is_background := true })
    (henv : ∀ (c : Command) (e : List (String × String)), P c → P { c with env_vars := e }) :
    ∀ (n : Nat) (tokens : List Token), tokens.length ≤ n →
    ∀ (cur : Option Command) (acc : List Command) (vars : List (String × String)),
      (∀ t ∈ tokens, t.type = TokenType.redirect_out →
        ∀ (c : Command) (o : Option String), P c → P { c with output_redirect := o }) →
      (∀ t ∈ tokens, t.type = TokenType.redirect_append →
        ∀ (c : Command) (o : Option String), P c → P { c with append_redirect := o }) →
      (∀ t ∈ tokens, t.type = TokenType.redirect_in →
        ∀ (c : Command) (o : Option String), P c → P { c with input_redirect := o }) →
      (∀ c ∈ acc, P c) → (∀ c ∈ cur.toList, P c) →
      ∀ c ∈ (parseLoop env tokens cur acc vars).1, P c := by
  intro n
  induction n with
  | zero =>
      intro tokens hlen cur acc vars _ _ _ hacc hcur c hc
      have htok : tokens = [] := List.length_eq_zero.mp (Nat.le_zero.mp hlen)
      subst htok
      simp only [parseLoop] at hc
      rcases List.mem_append.mp hc with h | h
      · exact hacc c h
      · exact hcur c h
  | succ n ih =>
      intro tokens hlen cur acc vars hO hA hI hacc hcur c hc
      cases tokens with
      | nil =>
          simp only [parseLoop] at hc
          rcases List.mem_append.mp hc with h | h
          · exact hacc c h
          · exact hcur c h
      | cons t rest =>
          obtain ⟨tt, tv, tp⟩ := t
          have hlen1 : rest.length ≤ n := by
            simp only [List.length_cons] at hlen
            omega
          have hO1 := fun t' ht' => hO t' (List.mem_cons_of_mem _ ht')
          have hA1 := fun t' ht' => hA t' (List.mem_cons_of_mem _ ht')
          have hI1 := fun t' ht' => hI t' (List.mem_cons_of_mem _ ht')
          have haccCur : ∀ c' ∈ acc ++ cur.toList, P c' := by
            intro c' hc'
            rcases List.mem_append.mp hc' with h | h
            · exact hacc c' h
            · exact hcur c' h
          cases tt with
          | command =>
              refine ih rest hlen1 _ _ _ hO1 hA1 hI1 haccCur ?_ c hc
              intro c' hc'
              simp only [Option.toList_some, List.mem_singleton] at hc'
              subst hc'
              exact hfresh _
          | argument =>
              cases cur with
              | none => exact ih rest hlen1 _ _ _ hO1 hA1 hI1 hacc (by simp) c hc
              | some c0 =>
                  refine ih rest hlen1 _ _ _ hO1 hA1 hI1 hacc ?_ c hc
                  intro c' hc'
                  simp only [Option.toList_some, List.mem_singleton] at hc'
                  subst hc'
                  exact hargs c0 _ (hcur c0 (by simp))
          | pipe =>
              cases cur with
              | none => exact ih rest hlen1 _ _ _ hO1 hA1 hI1 hacc (by simp) c hc
              | some c0 =>
                  refine ih rest hlen1 _ _ _ hO1 hA1 hI1 ?_ (by simp) c hc
                  intro c' hc'
                  rcases List.mem_append.mp hc' with h | h
                  · exact hacc c' h
                  · simp only [List.mem_singleton] at h
                    subst h
                    exact hcur c' (by simp)
          | redirect_out =>
              cases cur with
              | none => exact ih rest hlen1 _ _ _ hO1 hA1 hI1 hacc (by simp) c hc
              | some c0 =>
                  cases rest with
                  | nil =>
                      rcases List.mem_append.mp hc with h | h
                      · exact hacc c h
                      · simp only [List.mem_singleton] at h
                        subst h
                        exact hcur c (by simp)
                  | cons t2 rest2 =>
                      have hlen2 : rest2.length ≤ n := by
                        simp only [List.length_cons] at hlen
                        omega
                      refine ih rest2 hlen2 _ _ _
                        (fun t' ht' => hO1 t' (List.mem_cons_of_mem _ ht'))
                        (fun t' ht' => hA1 t' (List.mem_cons_of_mem _ ht'))
                        (fun t' ht' => hI1 t' (List.mem_cons_of_mem _ ht'))
                        hacc ?_ c hc
                      intro c' hc'
                      simp only [Option.toList_some, List.mem_singleton] at hc'
                      subst hc'
                      exact hO ⟨TokenType.redirect_out, tv, tp⟩ (List.mem_cons_self _ _) rfl
                        c0 _ (hcur c0 (by simp))
          | redirect_append =>
              cases cur with
              | none => exact ih rest hlen1 _ _ _ hO1 hA1 hI1 hacc (by simp) c hc
              | some c0 =>
                  cases rest with
                  | nil =>
                      rcases List.mem_append.mp hc with h | h
                      · exact hacc c h
                      · simp only [List.mem_singleton] at h
                        subst h
                        exact hcur c (by simp)
                  | cons t2 rest2 =>
                      have hlen2 : rest2.length ≤ n := by
                        simp only [List.length_cons] at hlen
                        omega
                      refine ih rest2 hlen2 _ _ _
                        (fun t' ht' => hO1 t' (List.mem_cons_of_mem _ ht'))
                        (fun t' ht' => hA1 t' (List.mem_cons_of_mem _ ht'))
                        (fun t' ht' => hI1 t' (List.mem_cons_of_mem _ ht'))
                        hacc ?_ c hc
                      intro c' hc'
                      simp only [Option.toList_some, List.mem_singleton] at hc'
                      subst hc'
                      exact hA ⟨TokenType.redirect_append, tv, tp⟩ (List.mem_cons_self _ _) rfl
                        c0 _ (hcur c0 (by simp))
          | redirect_in =>
              cases cur with
              | none => exact ih rest hlen1 _ _ _ hO1 hA1 hI1 hacc (by simp) c hc
              | some c0 =>
                  cases rest with
                  | nil =>
                      rcases List.mem_append.mp hc with h | h
                      · exact hacc c h
                      · simp only [List.mem_singleton] at h
                        subst h
                        exact hcur c (by simp)
                  | cons t2 rest2 =>
                      have hlen2 : rest2.length ≤ n := by
                        simp only [List.length_cons] at hlen
                        omega
                      refine ih rest2 hlen2 _ _ _
                        (fun t' ht' => hO1 t' (List.mem_cons_of_mem _ ht'))
                        (fun t' ht' => hA1 t' (List.mem_cons_of_mem _ ht'))
                        (fun t' ht' => hI1 t' (List.mem_cons_of_mem _ ht'))
                        hacc ?_ c hc
                      intro c' hc'
                      simp only [Option.toList_some, List.mem_singleton] at hc'
                      subst hc'
                      exact hI ⟨TokenType.redirect_in, tv, tp⟩ (List.mem_cons_self _ _) rfl
                        c0 _ (hcur c0 (by simp))
          | background =>
              cases cur with
              | none => exact ih rest hlen1 _ _ _ hO1 hA1 hI1 hacc (by simp) c hc
              | some c0 =>
                  refine ih rest hlen1 _ _ _ hO1 hA1 hI1 hacc ?_ c hc
                  intro c' hc'
                  simp only [Option.toList_some, List.mem_singleton] at hc'
                  subst hc'
                  exact hbg c0 (hcur c0 (by simp))
          | var =>
              revert hc
              by_cases hv : (tv.data.any fun c => c = '=') = true
              · cases cur with
                | none =>
                    simp only [parseLoop, Token.type, hv, if_true]
                    intro hc
                    exact ih rest hlen1 _ _ _ hO1 hA1 hI1 hacc (by simp) c hc
                | some c0 =>
                    simp only [parseLoop, Token.type, hv, if_true]
                    intro hc
                    refine ih rest hlen1 _ _ _ hO1 hA1 hI1 hacc ?_ c hc
                    intro c' hc'
                    simp only [Option.toList_some, List.mem_singleton] at hc'
                    subst hc'
                    exact henv c0 _ (hcur c0 (by simp))
              · cases cur with
                | none =>
                    simp only [parseLoop, Token.type, hv, if_false]
                    intro hc
                    exact ih rest hlen1 _ _ _ hO1 hA1 hI1 hacc (by simp) c hc
                | some c0 =>
                    simp only [parseLoop, Token.type, hv, if_false]
                    intro hc
                    exact ih rest hlen1 _ _ _ hO1 hA1 hI1 hacc hcur c hc

/-- The parse loop closes exactly one command per command token when no pipe
and no redirect token occurs, on top of the accumulator and the open
command. -/
theorem parseLoop_count (env : String → Option String) :
    ∀ (tokens : List Token) (cur : Option Command) (acc : List Command)
      (vars : List (String × String)),
      (∀ t ∈ tokens, t.type ≠ TokenType.pipe ∧ t.type ≠ TokenType.redirect_out
        ∧ t.type ≠ TokenType.redirect_append ∧ t.type ≠ TokenType.redirect_in) →
      (parseLoop env tokens cur acc vars).1.length
        = acc.length + cur.toList.length
          + tokens.countP (fun t => decide (t.type = TokenType.command)) := by
  intro tokens
  induction tokens with
  | nil =>
      intro cur acc vars _
      simp [parseLoop]
  | cons t rest ih =>
      intro cur acc vars h
      obtain ⟨tt, tv, tp⟩ := t
      obtain ⟨hnp, hno, hna, hni⟩ := h ⟨tt, tv, tp⟩ (List.mem_cons_self _ _)
      have h1 := fun t' ht' => h t' (List.mem_cons_of_mem _ ht')
      cases tt with
      | command =>
          have step : (parseLoop env (⟨TokenType.command, tv, tp⟩ :: rest) cur acc vars).1.length
              = (parseLoop env rest
                  (some ⟨expand_variables vars env tv, [], [], none, none, none, false⟩)
                  (acc ++ cur.toList) vars).1.length := rfl
          rw [step, ih _ _ _ h1]
          simp [List.countP_cons, List.length_append]
          omega
      | argument =>
          cases cur with
          | none =>
              have step : (parseLoop env (⟨TokenType.argument, tv, tp⟩ :: rest) none acc vars).1.length
                  = (parseLoop env rest none acc vars).1.length := rfl
              rw [step, ih _ _ _ h1]
              simp [List.countP_cons]
          | some c0 =>
              have step : (parseLoop env (⟨TokenType.argument, tv, tp⟩ :: rest) (some c0) acc vars).1.length
                  = (parseLoop env rest
                      (some { c0 with args := c0.args ++ [expand_variables vars env tv] })
                      acc vars).1.length := rfl
              rw [step, ih _ _ _ h1]
              simp [List.countP_cons]
      | pipe => exact absurd rfl hnp
      | redirect_out => exact absurd rfl hno
      | redirect_append => exact absurd rfl hna
      | redirect_in => exact absurd rfl hni
      | background =>
          cases cur with
          | none =>
              have step : (parseLoop env (⟨TokenType.background, tv, tp⟩ :: rest) none acc vars).1.length
                  = (parseLoop env rest none acc vars).1.length := rfl
              rw [step, ih _ _ _ h1]
              simp [List.countP_cons]
          | some c0 =>
              have step : (parseLoop env (⟨TokenType.background, tv, tp⟩ :: rest) (some c0) acc vars).1.length
                  = (parseLoop env rest (some { c0 with is_background := true }) acc vars).1.length := rfl
              rw [step, ih _ _ _ h1]
              simp [List.countP_cons]
      | var =>
          by_cases hv : (tv.data.any fun c => c = '=') = true
          · cases cur with
            | none =>
                simp only [parseLoop, Token.type, hv, if_true]
                rw [ih _ _ _ h1]
                simp [List.countP_cons]
            | some c0 =>
                simp only [parseLoop, Token.type, hv, if_true]
                rw [ih _ _ _ h1]
                simp [List.countP_cons]
          · cases cur with
            | none =>
                simp only [parseLoop, Token.type]
                rw [if_neg hv, ih _ _ _ h1]
                simp [List.countP_cons]
            | some c0 =>
                simp only [parseLoop, Token.type]
                rw [if_neg hv, ih _ _ _ h1]
                simp [List.countP_cons]

/-- Whitespace characters are neither quotes nor operator characters. -/
theorem pyIsSpace_not_special :
    ∀ c : Char, pyIsSpace c = true → isQuoteChar c = false ∧ isOpChar c = false := by
  intro c h
  simp only [pyIsSpace, Bool.or_eq_true, decide_eq_true_eq] at h
  rcases h with ((((h | h) | h) | h) | h) | h <;> subst h <;> decide

/-- The splitting loop over an all-whitespace suffix adds no parts. -/
theorem splitParts_all_space :
    ∀ (chars : List Char) (parts : List String),
      (∀ c ∈ chars, pyIsSpace c = true) →
      splitParts chars false none "" parts = parts := by
  intro chars
  induction chars with
  | nil =>
      intro parts _
      rfl
  | cons c rest ih =>
      intro parts h
      have hsp := h c (List.mem_cons_self _ _)
      obtain ⟨hq, ho⟩ := pyIsSpace_not_special c hsp
      have hf : flushPart "" parts = parts := rfl
      cases rest with
      | nil =>
          have step : splitParts [c] false none "" parts
              = (if isQuoteChar c && !false then
                  splitParts [] true (some c) (String.push "" c) parts
                else if false && ((none : Option Char) = some c) then
                  splitParts [] false none (String.push "" c) parts
                else if !false && isOpChar c then
                  flushPart "" parts ++ [String.singleton c]
                else if !false && pyIsSpace c then
                  splitParts [] false none "" (flushPart "" parts)
                else splitParts [] false none (String.push "" c) parts) := rfl
          rw [step]
          simp only [hq, ho, hsp, Bool.false_and, Bool.and_false, Bool.not_false,
            Bool.true_and, Bool.and_self, Bool.false_eq_true, if_false, if_true]
          rw [hf]
          rfl
      | cons c2 rest2 =>
          have step : splitParts (c :: c2 :: rest2) false none "" parts
              = (if isQuoteChar c && !false then
                  splitParts (c2 :: rest2) true (some c) (String.push "" c) parts
                else if false && ((none : Option Char) = some c) then
                  splitParts (c2 :: rest2) false none (String.push "" c) parts
                else if !false && isOpChar c then
                  (if c = '>' && c2 = '>' then
                    splitParts rest2 false none "" (flushPart "" parts ++ [">>"])
                  else if c = '&' && c2 = '&' then
                    splitParts rest2 false none "" (flushPart "" parts ++ ["&&"])
                  else if c = '|' && c2 = '|' then
                    splitParts rest2 false none "" (flushPart "" parts ++ ["||"])
                  else
                    splitParts (c2 :: rest2) false none ""
                      (flushPart "" parts ++ [String.singleton c]))
                else if !false && pyIsSpace c then
                  splitParts (c2 :: rest2) false none "" (flushPart "" parts)
                else splitParts (c2 :: rest2) false none (String.push "" c) parts) := rfl
          rw [step]
          simp only [hq, ho, hsp, Bool.false_and, Bool.and_false, Bool.not_false,
            Bool.true_and, Bool.and_self, Bool.false_eq_true, if_false, if_true]
          rw [hf]
          exact ih parts (fun c' hc' => h c' (List.mem_cons_of_mem _ hc'))

/-- A line whose strip is empty tokenizes to the empty token list. -/
theorem tokenize_strip_empty :
    ∀ line : String, pyStrip line = "" → tokenize line = [] := by
  intro line h
  have hdata : (((line.data.dropWhile pyIsSpace).reverse.dropWhile pyIsSpace).reverse)
      = ([] : List Char) := congrArg String.data h
  rw [List.reverse_eq_nil_iff] at hdata
  rw [List.dropWhile_eq_nil_iff] at hdata
  have hall : ∀ c ∈ line.data, pyIsSpace c = true := by
    intro c hc
    have hsplit := List.takeWhile_append_dropWhile (p := pyIsSpace) (l := line.data)
    rw [← hsplit] at hc
    rcases List.mem_append.mp hc with h1 | h2
    · exact List.mem_takeWhile_imp h1
    · exact hdata c (List.mem_reverse.mpr h2)
  unfold tokenize
  rw [splitParts_all_space line.data [] hall]
  rfl

/-- C5 amended: at most one of output_redirect and append_redirect is set on
every parsed command, provided the input line does not contain both a
redirect-out and a redirect-append operator token; when both operators occur
for one command the parser sets both fields (see the counterexample), and
execution then gives output_redirect precedence. -/
theorem c5_redirect_exclusive :
    ∀ (vars : List (String × String)) (env : String → Option String) (line : String),
      ((∀ t ∈ tokenize line, t.type ≠ TokenType.redirect_out)
        ∨ (∀ t ∈ tokenize line, t.type ≠ TokenType.redirect_append)) →
      ∀ c ∈ (parse vars env line).1.commands,
        c.output_redirect = none ∨ c.append_redirect = none := by
  intro vars env line hcase c hc
  by_cases hstrip : pyStrip line = ""
  · simp [parse, hstrip] at hc
  · have hparse : (parse vars env line).1.commands
        = (parseLoop env (tokenize line) none [] vars).1 := by
      simp [parse, hstrip]
    rw [hparse] at hc
    rcases hcase with hno | hno
    · left
      refine parseLoop_P env (fun c => c.output_redirect = none)
        (fun _ => rfl) (fun _ _ h => h) (fun _ h => h) (fun _ _ h => h)
        (tokenize line).length (tokenize line) (Nat.le_refl _) none [] vars
        ?_ ?_ ?_ (by simp) (by simp) c hc
      · intro t htmem htype
        exact absurd htype (hno t htmem)
      · intro _ _ _ _ _ h
        exact h
      · intro _ _ _ _ _ h
        exact h
    · right
      refine parseLoop_P env (fun c => c.append_redirect = none)
        (fun _ => rfl) (fun _ _ h => h) (fun _ h => h) (fun _ _ h => h)
        (tokenize line).length (tokenize line) (Nat.le_refl _) none [] vars
        ?_ ?_ ?_ (by simp) (by simp) c hc
      · intro _ _ _ _ _ h
        exact h
      · intro t htmem htype
        exact absurd htype (hno t htmem)
      · intro _ _ _ _ _ h
        exact h

/-- C5 witness: the amended invariant evaluated on the line echo a > f. -/
theorem c5_redirect_exclusive_witness :
    ((parse [] envNone "echo a > f").1.commands.headD defaultCmd).output_redirect = none
    ∨ ((parse [] envNone "echo a > f").1.commands.headD defaultCmd).append_redirect = none :=
  c5_redirect_exclusive [] envNone "echo a > f" (Or.inr (by decide)) _ (by decide)

/-- C8 amended: for every input line whose token sequence contains exactly
one command token and no pipe or redirect token, the parsed pipeline has
exactly one command whose redirect fields are all unset. The original claim
fails for lines like the empty line (zero commands), a leading variable
assignment or ampersand (zero commands), or a line with the and-and operator
(two commands), none of which contain the four listed operators. -/
theorem c8_one_command :
    ∀ (vars : List (String × String)) (env : String → Option String) (line : String),
      (tokenize line).countP (fun t => decide (t.type = TokenType.command)) = 1 →
      (∀ t ∈ tokenize line, t.type ≠ TokenType.pipe ∧ t.type ≠ TokenType.redirect_out
        ∧ t.type ≠ TokenType.redirect_append ∧ t.type ≠ TokenType.redirect_in) →
      (parse vars env line).1.commands.length = 1
      ∧ ∀ c ∈ (parse vars env line).1.commands,
          c.input_redirect = none ∧ c.output_redirect = none ∧ c.append_redirect = none := by
  intro vars env line hcount hops
  by_cases hstrip : pyStrip line = ""
  · rw [tokenize_strip_empty line hstrip] at hcount
    simp at hcount
  · have hparse : (parse vars env line).1.commands
        = (parseLoop env (tokenize line) none [] vars).1 := by
      simp [parse, hstrip]
    constructor
    · rw [hparse, parseLoop_count env (tokenize line) none [] vars hops, hcount]
      simp
    · intro c hc
      rw [hparse] at hc
      refine parseLoop_P env
        (fun c => c.input_redirect = none ∧ c.output_redirect = none
          ∧ c.append_redirect = none)
        (fun _ => ⟨rfl, rfl, rfl⟩) (fun _ _ h => h) (fun _ h => h) (fun _ _ h => h)
        (tokenize line).length (tokenize line) (Nat.le_refl _) none [] vars
        ?_ ?_ ?_ (by simp) (by simp) c hc
      · intro t htmem htype
        exact absurd htype (hops t htmem).2.1
      · intro t htmem htype
        exact absurd htype (hops t htmem).2.2.1
      · intro t htmem htype
        exact absurd htype (hops t htmem).2.2.2

/-- C8 witness: the amended statement evaluated on the line echo hi. -/
theorem c8_one_command_witness :
    (parse [] envNone "echo hi").1.commands.length = 1 :=
  (c8_one_command [] envNone "echo hi" (by decide) (by decide)).1

/-- Tokens produced from position pos onward sit at positions at least pos. -/
theorem classifyParts_pos_le :
    ∀ (parts : List String) (prev : Option String) (pos : Nat),
      ∀ t ∈ classifyParts parts prev pos, pos ≤ t.position := by
  intro parts
  induction parts with
  | nil => intro prev pos t ht; simp [classifyParts] at ht
  | cons p rest ih =>
      intro prev pos t ht
      simp only [classifyParts, List.mem_cons] at ht
      rcases ht with h | h
      · subst h; simp
      · have := ih (some p) (pos + p.length + 1) t h
        omega

/-- The classification loop emits tokens at strictly increasing positions. -/
theorem classifyParts_chain :
    ∀ (parts : List String) (prev : Option String) (pos : Nat),
      List.Chain' (fun a b => a.position < b.position) (classifyParts parts prev pos) := by
  intro parts
  induction parts with
  | nil => intro prev pos; simp [classifyParts]
  | cons p rest ih =>
      intro prev pos
      simp only [classifyParts]
      rw [List.chain'_cons']
      refine ⟨?_, ih _ _⟩
      intro b hb
      have hmem : b ∈ classifyParts rest (some p) (pos + p.length + 1) :=
        List.mem_of_mem_head? hb
      have := classifyParts_pos_le rest (some p) (pos + p.length + 1) b hmem
      simp only []
      omega

/-- C9: tokenize is a total function of the input line (so it never raises)
returning tokens in strictly increasing position order, and the unterminated
quote input tokenizes best-effort with the open quote running to end of line,
protecting the pipe character inside it. -/
theorem c9_tokenize_total_ordered :
    (∀ line : String, List.Chain' (fun a b => a.position < b.position) (tokenize line))
    ∧ tokenize "echo \"a | b"
      = [⟨TokenType.command, "echo", 0⟩, ⟨TokenType.argument, "\"a | b", 5⟩] := by
  constructor
  · intro line
    exact classifyParts_chain _ _ _
  · decide

/-- C9 witness: the order property evaluated at a concrete line. -/
theorem c9_tokenize_total_ordered_witness :
    List.Chain' (fun a b => a.position < b.position) (tokenize "echo hi > out.txt") :=
  c9_tokenize_total_ordered.1 "echo hi > out.txt"

/-- C7 counterexample: on an existing directory that os.chdir cannot enter,
change_directory fails even though the resolved path exists and is a
directory (refuting succeeds-exactly-when), and after the failure
current_directory has already been mutated to the resolved path (refuting
state-unchanged-on-failure): the source assigns current_dir before calling
os.chdir, whose exception lands in the except branch. -/
theorem c7_counterexample :
    (change_directory fsLocked resolveId stEmpty "/locked").1 = false
    ∧ fsLocked.pathExists "/locked" = true
    ∧ fsLocked.isDir "/locked" = true
    ∧ (change_directory fsLocked resolveId stEmpty "/locked").2.current_dir = "/locked"
    ∧ ¬ (stEmpty.current_dir = "/locked") := by
  decide

/-- C7 amended: change_directory succeeds exactly when the resolved path
exists, is a directory and the chdir call itself succeeds; success still
implies that the resolved path exists and is a directory (the only-if
direction the spec states). On every failure detected before the mutation
(resolution failure, missing path, not a directory) current_directory is
unchanged and the cd builtin reports exit 1 with a path error naming the
target, leaving the state unchanged; but when os.chdir raises after the
checks pass, the function returns failure with current_directory already
mutated to the resolved path. -/
theorem c7_change_directory :
    ∀ (fs : FileSys) (resolve : String → Option String) (st : ShellState) (path : String),
      ((change_directory fs resolve st path).1 = true ↔
        ∃ p, resolve path = some p ∧ fs.pathExists p = true ∧ fs.isDir p = true
          ∧ fs.unsearchable.contains p = false)
      ∧ ((change_directory fs resolve st path).1 = true →
          ∃ p, resolve path = some p ∧ fs.pathExists p = true ∧ fs.isDir p = true)
      ∧ ((resolve path = none ∨
            ∀ p, resolve path = some p → (fs.pathExists p && fs.isDir p) = false) →
          (change_directory fs resolve st path).1 = false
          ∧ (change_directory fs resolve st path).2 = st
          ∧ (∀ home : String,
              builtin_cd fs resolve home st [path]
                = (.done 1 "" ("cd: " ++ path ++ ": No such file or directory"), st))
          ∧ builtin_cd fs resolve path st []
              = (.done 1 "" ("cd: " ++ path ++ ": No such file or directory"), st))
      ∧ (∀ p, resolve path = some p → (fs.pathExists p && fs.isDir p) = true →
          fs.unsearchable.contains p = true →
          change_directory fs resolve st path = (false, { st with current_dir := p })) := by
  intro fs resolve st path
  rcases hr : resolve path with _ | p
  · refine ⟨?_, ?_, ?_, ?_⟩
    · constructor
      · intro h
        simp [change_directory, hr] at h
      · rintro ⟨q, hq, -, -, -⟩
        simp at hq
    · intro h
      simp [change_directory, hr] at h
    · intro _
      refine ⟨?_, ?_, ?_, ?_⟩
      · simp [change_directory, hr]
      · simp [change_directory, hr]
      · intro home
        simp [builtin_cd, change_directory, hr]
      · simp [builtin_cd, change_directory, hr]
    · intro q hq
      simp at hq
  · by_cases hb : (fs.pathExists p && fs.isDir p) = true
    · obtain ⟨he, hd⟩ : fs.pathExists p = true ∧ fs.isDir p = true := by
        simpa using hb
      by_cases hu : fs.unsearchable.contains p = true
      · have hm : p ∈ fs.unsearchable := by simpa using hu
        refine ⟨?_, ?_, ?_, ?_⟩
        · constructor
          · intro h
            simp [change_directory, hr, he, hd, hm] at h
          · rintro ⟨q, hq, -, -, hq4⟩
            simp only [Option.some.injEq] at hq
            subst hq
            rw [hu] at hq4
            simp at hq4
        · intro h
          simp [change_directory, hr, he, hd, hm] at h
        · intro h
          rcases h with h | h
          · simp at h
          · have hfc := h p rfl
            rw [hb] at hfc
            simp at hfc
        · intro q hq hbq huq
          simp only [Option.some.injEq] at hq
          subst hq
          simp [change_directory, hr, he, hd, hm]
      · have hu2 : fs.unsearchable.contains p = false := by
          simpa using hu
        have hnm : p ∉ fs.unsearchable := by simpa using hu2
        refine ⟨?_, ?_, ?_, ?_⟩
        · constructor
          · intro _
            exact ⟨p, rfl, he, hd, hu2⟩
          · intro _
            simp [change_directory, hr, he, hd, hnm]
        · intro _
          exact ⟨p, rfl, he, hd⟩
        · intro h
          rcases h with h | h
          · simp at h
          · have hfc := h p rfl
            rw [hb] at hfc
            simp at hfc
        · intro q hq hbq huq
          simp only [Option.some.injEq] at hq
          subst hq
          rw [hu2] at huq
          simp at huq
    · have hb2 : (fs.pathExists p && fs.isDir p) = false := by
        simpa using hb
      refine ⟨?_, ?_, ?_, ?_⟩
      · constructor
        · intro h
          simp [change_directory, hr, hb2] at h
        · rintro ⟨q, hq, he, hd, -⟩
          simp only [Option.some.injEq] at hq
          subst hq
          rw [he, hd] at hb2
          simp at hb2
      · intro h
        simp [change_directory, hr, hb2] at h
      · intro _
        refine ⟨?_, ?_, ?_, ?_⟩
        · simp [change_directory, hr, hb2]
        · simp [change_directory, hr, hb2]
        · intro home
          simp [builtin_cd, change_directory, hr, hb2]
        · simp [builtin_cd, change_directory, hr, hb2]
      · intro q hq hbq _
        simp only [Option.some.injEq] at hq
        subst hq
        rw [hbq] at hb2
        simp at hb2

/-- C7 witness: cd to a nonexistent path fails before the mutation, leaves
the state unchanged and the builtin reports the path error. -/
theorem c7_change_directory_witness :
    (change_directory fsEmpty resolveId stEmpty "/nonexistent").2 = stEmpty
    ∧ builtin_cd fsEmpty resolveId "/home/u" stEmpty ["/nonexistent"]
      = (.done 1 "" "cd: /nonexistent: No such file or directory", stEmpty) := by
  have h := (c7_change_directory fsEmpty resolveId stEmpty "/nonexistent").2.2.1
    (Or.inr (fun p hp => by cases hp; decide))
  exact ⟨h.2.1, h.2.2.1 "/home/u"⟩

/-- When every command of the segment is redirect-free and every spawn
succeeds, the spawning loop spawns one external process per stage, in order,
with the alias-resolved argv, and reports no failure. -/
theorem spawn_phase_ok (behav : Nat → StageBehavior) (fs : FileSys) (st : ShellState) :
    ∀ (cmds : List Command) (i : Nat) (events : List Event),
      (∀ c ∈ cmds, c.input_redirect = none ∧ c.output_redirect = none
        ∧ c.append_redirect = none) →
      (∀ j, (behav j).spawnOk = true) →
      spawn_phase behav fs st i cmds events
        = .ok (events ++ cmds.map (fun c => Event.spawn (stage_argv st c))) := by
  intro cmds
  induction cmds with
  | nil =>
      intro i events _ _
      simp [spawn_phase]
  | cons c rest ih =>
      intro i events h hok
      obtain ⟨hin, hout, happ⟩ := h c (List.mem_cons_self _ _)
      obtain ⟨nm, args, ev, irc, orc, arc, bg⟩ := c
      simp only [] at hin hout happ
      subst hin
      subst hout
      subst happ
      have step : spawn_phase behav fs st i
          (⟨nm, args, ev, none, none, none, bg⟩ :: rest) events
          = (if ((if i = 0 then true else true) && (if rest.isEmpty then true else true)
                && (behav i).spawnOk) then
              spawn_phase behav fs st (i + 1) rest
                (events ++ [Event.spawn (stage_argv st ⟨nm, args, ev, none, none, none, bg⟩)])
            else .error (events ++ kill_range i)) := rfl
      rw [step]
      simp only [ite_self, Bool.true_and, hok i, if_true]
      rw [ih (i + 1) _ (fun c' hc' => h c' (List.mem_cons_of_mem _ hc')) hok]
      simp [List.append_assoc]

/-- Without timeouts the waiting loop returns the exit code of the final
stage: the unconditional assignment at the last index overwrites whatever
non-zero code an intermediate stage recorded into the accumulator. -/
theorem waitLoop_no_timeout (behav : Nat → StageBehavior)
    (hnt : ∀ j, (behav j).timedOut = false) :
    ∀ (n i : Nat) (acc : Int), 1 ≤ n →
      waitLoop behav i n acc = some ((behav (i + n - 1)).exitCode) := by
  intro n
  induction n with
  | zero =>
      intro i acc h
      exact absurd h (by omega)
  | succ k ih =>
      intro i acc h
      cases k with
      | zero =>
          simp [waitLoop, hnt i]
      | succ m =>
          have step : waitLoop behav i (m + 2) acc
              = (if (behav i).timedOut then none
                else waitLoop behav (i + 1) (m + 1)
                  (if (behav i).exitCode = 0 then acc else (behav i).exitCode)) := rfl
          rw [step]
          simp only [hnt i, Bool.false_eq_true, if_false]
          rw [ih (i + 1) _ (by omega)]
          have hidx : i + 1 + (m + 1) - 1 = i + (m + 2) - 1 := by omega
          rw [hidx]

theorem spawn_events_append (a b : List Event) :
    spawn_events (a ++ b) = spawn_events a ++ spawn_events b := by
  simp [spawn_events, List.filterMap_append]

theorem spawn_events_map_spawn (l : List Command) (f : Command → List String) :
    spawn_events (l.map (fun c => Event.spawn (f c))) = l.map f := by
  induction l with
  | nil => rfl
  | cons c rest ih =>
      simp only [List.map_cons, spawn_events, List.filterMap_cons] at ih ⊢
      rw [ih]

theorem spawn_events_kill_range (n : Nat) : spawn_events (kill_range n) = [] := by
  unfold spawn_events kill_range
  induction (List.range n) with
  | nil => rfl
  | cons i rest ih =>
      simp only [List.map_cons, List.filterMap_cons]
      exact ih

/-- C1 amended: for every pipeline of two or more commands, executed with no
spawn failure, no redirects and no timeout, the returned exit code (and the
captured output) is simply that of the last stage: a non-zero exit code of an
upstream stage does not override it, because the unconditional final
assignment of the wait loop runs after the upstream checks. -/
theorem c1_exit_code_is_last (resolve : String → Option String) (home : String)
    (behav : Nat → StageBehavior) (fs : FileSys) (st : ShellState) (p : Pipeline)
    (hlen : 2 ≤ p.commands.length)
    (hred : ∀ c ∈ p.commands, c.input_redirect = none ∧ c.output_redirect = none
      ∧ c.append_redirect = none)
    (hok : ∀ j, (behav j).spawnOk = true)
    (hnt : ∀ j, (behav j).timedOut = false) :
    (execute_pipeline resolve home behav fs st p).1
      = .done ((behav (p.commands.length - 1)).exitCode)
          ((behav (p.commands.length - 1)).stdout)
          ((behav (p.commands.length - 1)).stderr) := by
  obtain ⟨cs, bg⟩ := p
  simp only [] at hlen hred ⊢
  match cs, hlen, hred with
  | a :: b :: l, _, hred =>
  have hstep : execute_pipeline resolve home behav fs st ⟨a :: b :: l, bg⟩
      = execute_pipeline_multi behav fs st (a :: b :: l) := rfl
  rw [hstep]
  simp only [execute_pipeline_multi]
  rw [spawn_phase_ok behav fs st (a :: b :: l) 0 [] hred hok]
  rw [waitLoop_no_timeout behav hnt (a :: b :: l).length 0 0 (by simp)]
  have hne : (a :: b :: l) ≠ [] := by simp
  rw [List.getLast?_eq_getLast_of_ne_nil hne]
  obtain ⟨_, ho, ha⟩ := hred ((a :: b :: l).getLast hne) (List.getLast_mem hne)
  dsimp only
  rw [ho, ha]
  simp

/-- C1 amended witness: a concrete two-stage pipeline whose first stage exits
1 and last stage exits 0 returns the last stage's code 0. -/
theorem c1_exit_code_is_last_witness :
    (execute_pipeline resolveId "/home/u" behFirstFails fsEmpty stEmpty
        ⟨[cmdFalse, cmdTrue], false⟩).1 = ExecOutcome.done 0 "o" "e" :=
  c1_exit_code_is_last resolveId "/home/u" behFirstFails fsEmpty stEmpty
    ⟨[cmdFalse, cmdTrue], false⟩ (by decide) (by decide)
    (fun j => by unfold behFirstFails; split <;> rfl)
    (fun j => by unfold behFirstFails; split <;> rfl)

/-- C6: on the multi-command path (two or more commands) the executor never
dispatches a builtin and never touches session state: the returned state is
the input state unconditionally, and (when spawning succeeds and no redirect
is involved) the event trace records exactly one external spawn per stage,
in order, with the alias-resolved argv, even for stages named like builtins
such as cd or echo. -/
theorem c6_multi_no_builtin_frame (resolve : String → Option String) (home : String)
    (behav : Nat → StageBehavior) (fs : FileSys) (st : ShellState) (p : Pipeline)
    (hlen : 2 ≤ p.commands.length) :
    (execute_pipeline resolve home behav fs st p).2.1 = st
    ∧ ((∀ c ∈ p.commands, c.input_redirect = none ∧ c.output_redirect = none
          ∧ c.append_redirect = none) →
        (∀ j, (behav j).spawnOk = true) →
        spawn_events (execute_pipeline resolve home behav fs st p).2.2.2
          = p.commands.map (stage_argv st)) := by
  obtain ⟨cs, bg⟩ := p
  simp only [] at hlen ⊢
  match cs, hlen with
  | a :: b :: l, _ =>
  have hstep : execute_pipeline resolve home behav fs st ⟨a :: b :: l, bg⟩
      = execute_pipeline_multi behav fs st (a :: b :: l) := rfl
  rw [hstep]
  constructor
  · simp only [execute_pipeline_multi]
    split
    · rfl
    · split
      · rfl
      · split
        · rfl
        · split
          · rfl
          · split
            · rfl
            · rfl
  · intro hred hok
    simp only [execute_pipeline_multi]
    rw [spawn_phase_ok behav fs st (a :: b :: l) 0 [] hred hok]
    cases hw : waitLoop behav 0 (a :: b :: l).length 0 with
    | none =>
        dsimp only
        simp only [List.nil_append]
        rw [spawn_events_append, spawn_events_map_spawn, spawn_events_kill_range,
          List.append_nil]
    | some code =>
        have hne : (a :: b :: l) ≠ [] := by simp
        rw [List.getLast?_eq_getLast_of_ne_nil hne]
        obtain ⟨_, ho, ha⟩ := hred ((a :: b :: l).getLast hne) (List.getLast_mem hne)
        dsimp only
        rw [ho, ha]
        dsimp only
        simp only [List.nil_append]
        rw [spawn_events_map_spawn]

/-- C6 witness: a two-stage pipeline whose stages are named cd and echo is
executed externally (two spawns, alias-resolved argv) with the session state
returned unchanged. -/
theorem c6_multi_no_builtin_frame_witness :
    (execute_pipeline resolveId "/home/u" behOk fsEmpty stEmpty
        ⟨[cmdCd, cmdEcho], false⟩).2.1 = stEmpty
    ∧ spawn_events (execute_pipeline resolveId "/home/u" behOk fsEmpty stEmpty
        ⟨[cmdCd, cmdEcho], false⟩).2.2.2 = [["cd", "x"], ["echo", "hi"]] :=
  ⟨(c6_multi_no_builtin_frame resolveId "/home/u" behOk fsEmpty stEmpty
      ⟨[cmdCd, cmdEcho], false⟩ (by decide)).1,
   (c6_multi_no_builtin_frame resolveId "/home/u" behOk fsEmpty stEmpty
      ⟨[cmdCd, cmdEcho], false⟩ (by decide)).2 (by decide) (fun j => rfl)⟩

/-- C2 amended: executing the parsed line echo hi > out.txt dispatches the
builtin echo in-process, returns exit code 0 with stdout the string hi and
empty stderr, and leaves the session state and the filesystem unchanged (no
out.txt is written): redirects are ignored on the builtin path. -/
theorem c2_echo_redirect_ignored :
    ∀ (vars : List (String × String)) (env resolve : String → Option String)
      (home : String) (behav : Nat → StageBehavior) (fs : FileSys) (st : ShellState),
      execute_pipeline resolve home behav fs st (parse vars env "echo hi > out.txt").1
        = (.done 0 "hi" "", st, fs, []) := by
  intro vars env resolve home behav fs st
  rfl

/-- C2 amended witness at concrete state, filesystem and oracle. -/
theorem c2_echo_redirect_ignored_witness :
    execute_pipeline resolveId "/home/u" behOk fsEmpty stEmpty
        (parse [] envNone "echo hi > out.txt").1
      = (.done 0 "hi" "", stEmpty, fsEmpty, []) :=
  c2_echo_redirect_ignored [] envNone resolveId "/home/u" behOk fsEmpty stEmpty

/-- C4 amended: the dollar-prefixed assignment line stores the value under
the stripped name in session variables and yields a pipeline with no
commands; the bare VAR=value line instead parses into one command named
VAR=value and leaves session variables untouched. -/
theorem c4_assignment_forms :
    ∀ (vars : List (String × String)) (env : String → Option String),
      parse vars env "$VAR=value" = (⟨[], false⟩, setKV vars "VAR" "value")
      ∧ parse vars env "VAR=value"
          = (⟨[⟨"VAR=value", [], [], none, none, none, false⟩], false⟩, vars) := by
  intro vars env
  exact ⟨rfl, rfl⟩

/-- C4 amended witness at empty initial session variables. -/
theorem c4_assignment_forms_witness :
    parse [] envNone "$VAR=value" = (⟨[], false⟩, [("VAR", "value")]) :=
  (c4_assignment_forms [] envNone).1

/-- C10: on timeout of a single external command (here sleep 60 against an
oracle whose wait times out), the executor returns the timed-out result but
its event trace contains the spawn and no kill: the spawned process is left
running as an orphan. The multi-command path, by contrast, kills every
spawned process on timeout. The configured timeout constant is 30 seconds. -/
theorem c10_timeout_no_kill_single :
    (execute_pipeline resolveId "/home/u" behTimeout fsEmpty stEmpty ⟨[cmdSleep], false⟩)
      = (ExecOutcome.done 1 "" "Command timed out", stEmpty, fsEmpty,
          [Event.spawn ["sleep", "60"]])
    ∧ (execute_pipeline resolveId "/home/u" behTimeout fsEmpty stEmpty
        ⟨[cmdFalse, cmdTrue], false⟩)
      = (ExecOutcome.done 1 "" "Pipeline timed out", stEmpty, fsEmpty,
          [Event.spawn ["false"], Event.spawn ["true"], Event.kill 0, Event.kill 1])
    ∧ timeoutSeconds = 30 := by
  decide

end Lucien
